import Mathlib

/-
Shallow embedding of `src/MetOceanApi_withfunctions.py` (buoy data pipeline).

A pandas cell is either a missing value (`NaN`, modelled `Cell.null`), a
numeric value (floats modelled as rationals; IEEE comparison on the finite
values the program handles agrees with the rational order, and `NaN`, which
compares false, is `Cell.null`), or a string.  A DataFrame row is an
association list from column names to cells (a missing key reads as null,
matching `pd.DataFrame(list_of_dicts)` filling absent keys with `NaN`), and
a DataFrame is a column list together with a row list.  Fallible pandas
operations (`KeyError`, `TypeError`, `ValueError`) are `Except String`.
-/

deriving instance DecidableEq for Except

namespace MetOcean

inductive Cell where
  | null : Cell
  | num (q : ℚ) : Cell
  | str (s : String) : Cell
deriving DecidableEq

abbrev Row := List (String × Cell)

/-- Value of column `c` in row `r`; a missing key reads as null (`NaN`). -/
def lookupCell : Row → String → Cell
  | [], _ => Cell.null
  | (k, v) :: r, c => if k = c then v else lookupCell r c

def hasKey (r : Row) (c : String) : Bool :=
  r.any (fun p => decide (p.1 = c))

structure DataFrame where
  cols : List String
  rows : List Row
deriving DecidableEq

/-- The row predicate of `df[column] <= threshold`: a numeric cell compares
numerically, `NaN` (null) compares false. -/
def cellLe : Cell → ℚ → Bool
  | Cell.num q, t => decide (q ≤ t)
  | _, _ => false

def isStrCell : Cell → Bool
  | Cell.str _ => true
  | _ => false

/-- `BuoyDataProcessor.clean_data` (line 52): `df.loc[df[column] <= threshold]`.
A column absent from the frame raises `KeyError`; comparing a string cell
against a float raises `TypeError`; otherwise the rows failing the predicate
(including all null rows) are dropped, in place, in order. -/
def clean_data (df : DataFrame) (column : String) (threshold : ℚ) : Except String DataFrame :=
  if column ∈ df.cols then
    if df.rows.any (fun r => isStrCell (lookupCell r column)) then
      Except.error "TypeError"
    else
      Except.ok ⟨df.cols, df.rows.filter (fun r => cellLe (lookupCell r column) threshold)⟩
  else
    Except.error ("KeyError: " ++ column)

/-- C1: for every dataset whose designated column exists and holds only
numeric-or-null cells (the program only cleans the numeric water-temperature
column), `clean_data` succeeds — null rows are excluded without an error —
and every returned row has a numeric value in that column that does not
exceed the threshold; in particular no returned row is null in that column. -/
theorem clean_data_no_null_no_exceed (df : DataFrame) (column : String) (t : ℚ)
    (hc : column ∈ df.cols)
    (hs : ∀ r ∈ df.rows, isStrCell (lookupCell r column) = false) :
    ∃ out, clean_data df column t = Except.ok out ∧
      ∀ r ∈ out.rows, ∃ q, lookupCell r column = Cell.num q ∧ q ≤ t := by
  have hany : df.rows.any (fun r => isStrCell (lookupCell r column)) = false := by
    rw [Bool.eq_false_iff]
    intro hcon
    rcases List.any_eq_true.mp hcon with ⟨r, hr, hp⟩
    rw [hs r hr] at hp
    exact Bool.false_ne_true hp
  refine ⟨⟨df.cols, df.rows.filter (fun r => cellLe (lookupCell r column) t)⟩, ?_, ?_⟩
  · simp only [clean_data, if_pos hc, hany, Bool.false_eq_true, if_false]
  · intro r hr
    rcases List.mem_filter.mp hr with ⟨_, hp⟩
    cases hcell : lookupCell r column with
    | null => rw [hcell] at hp; simp [cellLe] at hp
    | str s => rw [hcell] at hp; simp [cellLe] at hp
    | num q =>
        rw [hcell] at hp
        exact ⟨q, rfl, by simpa [cellLe] using hp⟩

/-- Witness for C1 on a concrete three-row frame (15, null, 52). -/
theorem clean_data_no_null_no_exceed_witness :
    ∃ out,
      clean_data
        ⟨["waterTemperature_latest"],
         [[("waterTemperature_latest", Cell.num 15)],
          [("waterTemperature_latest", Cell.null)],
          [("waterTemperature_latest", Cell.num 52)]]⟩
        "waterTemperature_latest" 30 = Except.ok out ∧
      ∀ r ∈ out.rows, ∃ q, lookupCell r "waterTemperature_latest" = Cell.num q ∧ q ≤ 30 :=
  clean_data_no_null_no_exceed _ _ 30 (by decide) (by decide)

/-- C7: `clean_data` is idempotent — whenever it returns an output frame,
cleaning that output again with the same column and threshold returns the
same frame. -/
theorem clean_data_idempotent (df out : DataFrame) (column : String) (t : ℚ)
    (h : clean_data df column t = Except.ok out) :
    clean_data out column t = Except.ok out := by
  by_cases hc : column ∈ df.cols
  · by_cases hany : df.rows.any (fun r => isStrCell (lookupCell r column)) = true
    · simp only [clean_data, if_pos hc, hany, if_true] at h
      exact Except.noConfusion h
    · simp only [clean_data, if_pos hc, hany, if_false] at h
      have hout : out = ⟨df.cols, df.rows.filter (fun r => cellLe (lookupCell r column) t)⟩ :=
        (Except.ok.injEq _ _).mp h.symm
      subst hout
      have hc' : column ∈ df.cols := hc
      have hany' :
          (df.rows.filter (fun r => cellLe (lookupCell r column) t)).any
            (fun r => isStrCell (lookupCell r column)) = false := by
        rw [Bool.eq_false_iff]
        intro hcon
        rcases List.any_eq_true.mp hcon with ⟨r, hr, hp⟩
        exact hany (List.any_eq_true.mpr ⟨r, (List.mem_filter.mp hr).1, hp⟩)
      simp only [clean_data, if_pos hc', hany', Bool.false_eq_true, if_false,
        Except.ok.injEq]
      refine congrArg (fun rs => DataFrame.mk df.cols rs) ?_
      rw [List.filter_filter]
      exact List.filter_congr (fun r _ => Bool.and_self _)
  · simp only [clean_data, if_neg hc] at h
    exact Except.noConfusion h

/-- Witness for C7: cleaning the already-cleaned one-row frame is a fixed point. -/
theorem clean_data_idempotent_witness :
    clean_data ⟨["waterTemperature_latest"], [[("waterTemperature_latest", Cell.num 15)]]⟩
      "waterTemperature_latest" 30 =
    Except.ok ⟨["waterTemperature_latest"], [[("waterTemperature_latest", Cell.num 15)]]⟩ :=
  clean_data_idempotent
    ⟨["waterTemperature_latest"],
     [[("waterTemperature_latest", Cell.num 15)],
      [("waterTemperature_latest", Cell.null)]]⟩
    _ "waterTemperature_latest" 30 (by decide)

/-- C8: `clean_data` is a pure filter — the output's columns equal the
input's, and the output rows are a sublist of the input rows: every
surviving row is unchanged in all fields and relative order is preserved. -/
theorem clean_data_pure_filter (df out : DataFrame) (column : String) (t : ℚ)
    (h : clean_data df column t = Except.ok out) :
    out.cols = df.cols ∧ out.rows.Sublist df.rows := by
  by_cases hc : column ∈ df.cols
  · by_cases hany : df.rows.any (fun r => isStrCell (lookupCell r column)) = true
    · simp only [clean_data, if_pos hc, hany, if_true] at h
      exact Except.noConfusion h
    · simp only [clean_data, if_pos hc, hany, if_false] at h
      have hout : out = ⟨df.cols, df.rows.filter (fun r => cellLe (lookupCell r column) t)⟩ :=
        (Except.ok.injEq _ _).mp h.symm
      subst hout
      exact ⟨rfl, List.filter_sublist _⟩
  · simp only [clean_data, if_neg hc] at h
    exact Except.noConfusion h

/-- Witness for C8 on a concrete two-row frame. -/
theorem clean_data_pure_filter_witness :
    (DataFrame.mk ["waterTemperature_latest"] [[("waterTemperature_latest", Cell.num 15)]]).cols =
      (DataFrame.mk ["waterTemperature_latest"]
        [[("waterTemperature_latest", Cell.num 15)],
         [("waterTemperature_latest", Cell.num 52)]]).cols ∧
    (DataFrame.mk ["waterTemperature_latest"] [[("waterTemperature_latest", Cell.num 15)]]).rows.Sublist
      (DataFrame.mk ["waterTemperature_latest"]
        [[("waterTemperature_latest", Cell.num 15)],
         [("waterTemperature_latest", Cell.num 52)]]).rows :=
  clean_data_pure_filter
    ⟨["waterTemperature_latest"],
     [[("waterTemperature_latest", Cell.num 15)],
      [("waterTemperature_latest", Cell.num 52)]]⟩
    _ "waterTemperature_latest" 30 (by decide)

/-- C10: when the designated column is absent from the frame, `clean_data`
raises `KeyError` instead of returning a result. -/
theorem clean_data_missing_column (df : DataFrame) (column : String) (t : ℚ)
    (h : column ∉ df.cols) :
    clean_data df column t = Except.error ("KeyError: " ++ column) := by
  simp only [clean_data, if_neg h]

/-- Witness for C10: a merged frame that never received a measurement column
makes cleaning raise `KeyError`, not return an empty frame. -/
theorem clean_data_missing_column_witness :
    clean_data
      ⟨["mmsi", "siteName", "latitude", "longitude"],
       [[("mmsi", Cell.num 1), ("siteName", Cell.str "Alpha"),
         ("latitude", Cell.num 52), ("longitude", Cell.num (-8))]]⟩
      "waterTemperature_latest" 30 =
    Except.error ("KeyError: " ++ "waterTemperature_latest") :=
  clean_data_missing_column _ _ 30 (by decide)

/-- A value parsed from a JSON response body, as the duck-typed Python code
distinguishes shapes: a single record (dict), an array of records (the only
array shape the pipeline consumes), a number, a string, or JSON null. -/
inductive PyVal where
  | dict (r : Row) : PyVal
  | arr (elems : List Row) : PyVal
  | num (q : ℚ) : PyVal
  | str (s : String) : PyVal
  | pynull : PyVal
deriving DecidableEq

/-- Outcome of one `requests.get` round trip: a parsed body on a 2xx status,
or one of the failure modes `MetOceanAPI.get_data` catches — a non-success
status (`raise_for_status`), a transport-level `RequestException`, or an
unparseable body (`JSONDecodeError`, itself a `RequestException`). -/
inductive NetResult where
  | success (v : PyVal) : NetResult
  | httpError (detail : String) : NetResult
  | transportError (detail : String) : NetResult
  | invalidJson (detail : String) : NetResult
deriving DecidableEq

inductive Severity where
  | info : Severity
  | warning : Severity
  | error : Severity
deriving DecidableEq

structure LogEntry where
  sev : Severity
  msg : String
deriving DecidableEq

/-- `MetOceanAPI.get_data` (lines 16-23): one GET against
`{base_url}/{endpoint}`; any `RequestException` (transport error, non-2xx
status, bad JSON) is caught, logged at error severity with the endpoint and
the error detail, and turned into `None`. -/
def get_data (transport : String → NetResult) (base endpoint : String) :
    Option PyVal × List LogEntry :=
  match transport (base ++ "/" ++ endpoint) with
  | NetResult.success v => (some v, [])
  | NetResult.httpError e =>
      (none, [⟨Severity.error, "Error fetching data from " ++ endpoint ++ ": " ++ e⟩])
  | NetResult.transportError e =>
      (none, [⟨Severity.error, "Error fetching data from " ++ endpoint ++ ": " ++ e⟩])
  | NetResult.invalidJson e =>
      (none, [⟨Severity.error, "Error fetching data from " ++ endpoint ++ ": " ++ e⟩])

/-- C5: `get_data` either returns the parsed response (with no log entry) or,
on a non-success status, transport error, or bad body, returns the explicit
failure value `None` — never propagating the exception and never a partial
value — and logs one error-severity entry whose message carries the resource
path and the error detail. -/
theorem get_data_returns_or_logs (transport : String → NetResult) (base endpoint : String) :
    (∃ v, transport (base ++ "/" ++ endpoint) = NetResult.success v ∧
      get_data transport base endpoint = (some v, [])) ∨
    (∃ e, (transport (base ++ "/" ++ endpoint) = NetResult.httpError e ∨
           transport (base ++ "/" ++ endpoint) = NetResult.transportError e ∨
           transport (base ++ "/" ++ endpoint) = NetResult.invalidJson e) ∧
      get_data transport base endpoint =
        (none, [⟨Severity.error, "Error fetching data from " ++ endpoint ++ ": " ++ e⟩])) := by
  cases h : transport (base ++ "/" ++ endpoint) with
  | success v => exact Or.inl ⟨v, rfl, by simp [get_data, h]⟩
  | httpError e => exact Or.inr ⟨e, Or.inl rfl, by simp [get_data, h]⟩
  | transportError e => exact Or.inr ⟨e, Or.inr (Or.inl rfl), by simp [get_data, h]⟩
  | invalidJson e => exact Or.inr ⟨e, Or.inr (Or.inr rfl), by simp [get_data, h]⟩

/-- Column labels of `pd.DataFrame(list_of_dicts)`: the union of the record
keys, in order of first appearance. -/
def unionKeys (rows : List Row) : List String :=
  rows.foldl (fun acc r => acc ++ (r.map Prod.fst).filter (fun k => decide (k ∉ acc))) []

/-- `pd.DataFrame(x)` on the payload shapes the pipeline can receive:
`None` gives the empty frame, a list of records gives a frame over the union
of their keys, and a dict-of-scalars or bare scalar raises `ValueError`. -/
def buildDataFrame : Option PyVal → Except String DataFrame
  | none => Except.ok ⟨[], []⟩
  | some (PyVal.arr rs) => Except.ok ⟨unionKeys rs, rs⟩
  | some _ => Except.error "ValueError"

/-- `BuoyDataProcessor.get_top_level_data` (lines 29-31): fetch the registry
endpoint and wrap the result in a DataFrame. -/
def get_top_level_data (transport : String → NetResult) (base endpoint : String) :
    Except String DataFrame × List LogEntry :=
  let p := get_data transport base endpoint
  (buildDataFrame p.1, p.2)

/-- C9: when the DataSource call for the registry resource fails (`get_data`
returns the failure value `None`), `get_top_level_data` returns an empty
registry — zero device entries — rather than raising or propagating. -/
theorem get_top_level_data_empty_on_failure (transport : String → NetResult)
    (base endpoint : String)
    (h : (get_data transport base endpoint).1 = none) :
    (get_top_level_data transport base endpoint).1 = Except.ok ⟨[], []⟩ := by
  simp only [get_top_level_data, h, buildDataFrame]

/-- Witness for C9: a transport that always fails yields the empty registry. -/
theorem get_top_level_data_empty_on_failure_witness :
    (get_top_level_data (fun _ => NetResult.transportError "connection refused")
      "https://cilpublic.cil.ie/metoceanapi/api" "metoceansitesensors/").1 =
    Except.ok ⟨[], []⟩ :=
  get_top_level_data_empty_on_failure _ _ _ (by decide)

/-- The warning `BuoyDataProcessor.get_latest_data` logs for a skipped MMSI. -/
def warnEntry (mmsi : String) : LogEntry :=
  ⟨Severity.warning, "No valid data returned for MMSI " ++ mmsi⟩

/-- The per-MMSI loop of `BuoyDataProcessor.get_latest_data` (lines 34-41):
fetch `endpoint_latest + str(mmsi)`; `if data and isinstance(data, dict)`
keeps the record, anything else (failure, non-dict shape, or a falsy empty
dict) logs the warning and is skipped; the loop continues. -/
def latestLoop (transport : String → NetResult) (base endpointLatest : String) :
    List String → List Row × List LogEntry
  | [] => ([], [])
  | mmsi :: rest =>
    let p := get_data transport base (endpointLatest ++ mmsi)
    let acc := latestLoop transport base endpointLatest rest
    match p.1 with
    | some (PyVal.dict r) =>
        if r.isEmpty then (acc.1, p.2 ++ warnEntry mmsi :: acc.2)
        else (r :: acc.1, p.2 ++ acc.2)
    | _ => (acc.1, p.2 ++ warnEntry mmsi :: acc.2)

/-- `BuoyDataProcessor.get_latest_data` (lines 33-43): run the loop and wrap
the kept records in a DataFrame (an empty list gives `pd.DataFrame()`, the
column-less empty frame, which `unionKeys [] = []` also produces). -/
def get_latest_data (transport : String → NetResult) (base endpointLatest : String)
    (mmsiList : List String) : DataFrame × List LogEntry :=
  let acc := latestLoop transport base endpointLatest mmsiList
  (⟨unionKeys acc.1, acc.1⟩, acc.2)

/-- The acceptance test the loop applies to one identifier: the reading is
kept exactly when the fetch succeeded with a truthy (non-empty) dict. -/
def latestAccepted (transport : String → NetResult) (base endpointLatest mmsi : String) :
    Option Row :=
  match (get_data transport base (endpointLatest ++ mmsi)).1 with
  | some (PyVal.dict r) => if r.isEmpty then none else some r
  | _ => none

/-- Overlap of `pd.merge(..., on='mmsi', suffixes=('_top', '_latest'))`:
the column names present in both frames, the join key excepted. -/
def overlapCols (lc rc : List String) : List String :=
  lc.filter (fun c => !decide (c = "mmsi") && decide (c ∈ rc))

/-- Append the suffix to the names in the overlap, leave the others alone. -/
def suffixIf (ov : List String) (suf : String) (c : String) : String :=
  if c ∈ ov then c ++ suf else c

def lrenOf (lc rc : List String) : String → String :=
  suffixIf (overlapCols lc rc) "_top"

def rrenOf (lc rc : List String) : String → String :=
  suffixIf (overlapCols lc rc) "_latest"

def renameKeys (f : String → String) (r : Row) : Row :=
  r.map (fun p => (f p.1, p.2))

def eraseKey (c : String) (r : Row) : Row :=
  r.filter (fun p => !decide (p.1 = c))

/-- The right-frame rows whose join key equals `k`; a null (`NaN`) key never
matches, as in pandas. -/
def matchesFor (rightRows : List Row) (k : Cell) : List Row :=
  rightRows.filter (fun R => !decide (k = Cell.null) && decide (lookupCell R "mmsi" = k))

/-- Output rows contributed by one left row in a left outer join: its matches
enriched with the right columns (the right key column dropped, overlapping
names suffixed), or the renamed left row alone when nothing matches — the
missing right keys then read as null. -/
def mergeRowsFor (rightRows : List Row) (lren rren : String → String) (L : Row) : List Row :=
  match matchesFor rightRows (lookupCell L "mmsi") with
  | [] => [renameKeys lren L]
  | ms => ms.map (fun R => renameKeys lren L ++ renameKeys rren (eraseKey "mmsi" R))

/-- Output column labels of the merge: left columns (suffixed on overlap,
the key kept in place) followed by the non-key right columns (suffixed). -/
def mergedCols (lc rc : List String) : List String :=
  lc.map (lrenOf lc rc) ++ (rc.filter (fun c => !decide (c = "mmsi"))).map (rrenOf lc rc)

def concatMap (f : Row → List Row) : List Row → List Row
  | [] => []
  | x :: xs => f x ++ concatMap f xs

/-- `BuoyDataProcessor.merge_data` (lines 45-47):
`pd.merge(buoys_df, latest_df, on='mmsi', how='left', suffixes=('_top', '_latest'))`.
pandas raises `KeyError` when either frame lacks the `mmsi` column (the
all-fetches-failed latest frame has no columns at all); otherwise every left
row is kept, in order, paired with each matching right row in right order. -/
def merge_data (left right : DataFrame) : Except String DataFrame :=
  if "mmsi" ∈ left.cols ∧ "mmsi" ∈ right.cols then
    Except.ok ⟨mergedCols left.cols right.cols,
      concatMap (mergeRowsFor right.rows (lrenOf left.cols right.cols)
        (rrenOf left.cols right.cols)) left.rows⟩
  else
    Except.error "KeyError: mmsi"

/-- The single enriched record a left row yields when its match is unique. -/
def enrichRow (rightRows : List Row) (lren rren : String → String) (L : Row) : Row :=
  match matchesFor rightRows (lookupCell L "mmsi") with
  | [] => renameKeys lren L
  | R :: _ => renameKeys lren L ++ renameKeys rren (eraseKey "mmsi" R)

/-- C3 counterexample: a fetch for identifier 7 that succeeds and returns a
dictionary-shaped record — the empty dict — is nevertheless skipped and
warned about, so "skipped exactly when the fetch fails or returns non-dict
data" is false as stated. -/
theorem get_latest_data_empty_dict_cex :
    (get_data (fun _ => NetResult.success (PyVal.dict [])) "b" ("realtime/latest/" ++ "7")).1 =
      some (PyVal.dict []) ∧
    (get_latest_data (fun _ => NetResult.success (PyVal.dict [])) "b" "realtime/latest/"
      ["7"]).1.rows = [] ∧
    (get_latest_data (fun _ => NetResult.success (PyVal.dict [])) "b" "realtime/latest/"
      ["7"]).2 = [warnEntry "7"] := by
  refine ⟨rfl, rfl, rfl⟩

/-- Helper: `get_data` never logs at warning severity. -/
theorem get_data_log_no_warning (transport : String → NetResult) (base endpoint : String) :
    (get_data transport base endpoint).2.filter
      (fun l => decide (l.sev = Severity.warning)) = [] := by
  cases h : transport (base ++ "/" ++ endpoint) <;> simp [get_data, h]

/-- Helper: one loop iteration that accepts its reading prepends the record
and only the fetch log. -/
theorem latestLoop_cons_some (transport : String → NetResult) (base ep m : String)
    (rest : List String) (r : Row)
    (h : latestAccepted transport base ep m = some r) :
    latestLoop transport base ep (m :: rest) =
      (r :: (latestLoop transport base ep rest).1,
       (get_data transport base (ep ++ m)).2 ++ (latestLoop transport base ep rest).2) := by
  cases hd : (get_data transport base (ep ++ m)).1 with
  | none => simp [latestAccepted, hd] at h
  | some v =>
    cases v with
    | dict r' =>
        simp only [latestAccepted, hd] at h
        by_cases hre : r'.isEmpty
        · rw [if_pos hre] at h; exact Option.noConfusion h
        · rw [if_neg hre] at h
          obtain rfl : r' = r := Option.some.inj h
          simp only [latestLoop, hd, if_neg hre]
    | arr elems => simp [latestAccepted, hd] at h
    | num q => simp [latestAccepted, hd] at h
    | str s => simp [latestAccepted, hd] at h
    | pynull => simp [latestAccepted, hd] at h

/-- Helper: one loop iteration that rejects its reading keeps the row list
and appends the fetch log and the warning. -/
theorem latestLoop_cons_none (transport : String → NetResult) (base ep m : String)
    (rest : List String)
    (h : latestAccepted transport base ep m = none) :
    latestLoop transport base ep (m :: rest) =
      ((latestLoop transport base ep rest).1,
       (get_data transport base (ep ++ m)).2 ++
         warnEntry m :: (latestLoop transport base ep rest).2) := by
  cases hd : (get_data transport base (ep ++ m)).1 with
  | none => simp only [latestLoop, hd]
  | some v =>
    cases v with
    | dict r' =>
        simp only [latestAccepted, hd] at h
        by_cases hre : r'.isEmpty
        · simp only [latestLoop, hd, if_pos hre]
        · rw [if_neg hre] at h; exact Option.noConfusion h
    | arr elems => simp only [latestLoop, hd]
    | num q => simp only [latestLoop, hd]
    | str s => simp only [latestLoop, hd]
    | pynull => simp only [latestLoop, hd]

/-- C3 amended: for every transport behavior and identifier list, the rows
`get_latest_data` returns are exactly the accepted readings, in input order —
an identifier is skipped, contributing no entry, exactly when its fetch fails,
returns non-dict data, or returns a falsy (empty) record — and the warnings
logged name exactly the skipped identifiers; the loop is total, so no
exception propagates. -/
theorem get_latest_data_skip_policy (transport : String → NetResult)
    (base ep : String) (ms : List String) :
    (get_latest_data transport base ep ms).1.rows =
      ms.filterMap (latestAccepted transport base ep) ∧
    (get_latest_data transport base ep ms).2.filter
        (fun l => decide (l.sev = Severity.warning)) =
      (ms.filter (fun m => (latestAccepted transport base ep m).isNone)).map warnEntry := by
  induction ms with
  | nil => exact ⟨rfl, rfl⟩
  | cons m rest ih =>
    obtain ⟨hrows, hlogs⟩ := ih
    have hnw := get_data_log_no_warning transport base (ep ++ m)
    simp only [get_latest_data] at hrows hlogs ⊢
    cases ha : latestAccepted transport base ep m with
    | some r =>
        rw [latestLoop_cons_some transport base ep m rest r ha]
        constructor
        · simp only [List.filterMap_cons, ha]
          rw [hrows]
        · simp [List.filter_append, hnw, List.filter_cons, ha, hlogs]
    | none =>
        rw [latestLoop_cons_none transport base ep m rest ha]
        constructor
        · simp only [List.filterMap_cons, ha]
          exact hrows
        · simp [List.filter_append, hnw, List.filter_cons, ha, warnEntry, hlogs]

/-- The one-row registry of spec Scenario A. -/
def regAlpha : DataFrame :=
  ⟨["mmsi", "siteName", "latitude", "longitude"],
   [[("mmsi", Cell.num 1), ("siteName", Cell.str "Alpha"),
     ("latitude", Cell.num 52), ("longitude", Cell.num (-8))]]⟩

/-- C4: when every per-device fetch fails, `get_latest_data` returns the
column-less empty frame, and merging the non-empty registry against it
raises `KeyError` on the join key — the merge-then-clean steps do NOT
complete, contradicting spec Scenario A. -/
theorem merge_raises_when_all_fetches_fail :
    (get_latest_data (fun _ => NetResult.transportError "timeout")
      "https://cilpublic.cil.ie/metoceanapi/api" "realtime/latest/" ["1"]).1 =
      ⟨[], []⟩ ∧
    merge_data regAlpha
      (get_latest_data (fun _ => NetResult.transportError "timeout")
        "https://cilpublic.cil.ie/metoceanapi/api" "realtime/latest/" ["1"]).1 =
      Except.error "KeyError: mmsi" := by
  constructor
  · rfl
  · rfl

/-- String fact: appending `_top` to anything never yields the key name. -/
theorem append_top_ne_mmsi (c : String) : c ++ "_top" ≠ "mmsi" := by
  intro he
  have hl := congrArg String.length he
  rw [String.length_append] at hl
  have h1 : ("_top" : String).length = 4 := rfl
  have h2 : ("mmsi" : String).length = 4 := rfl
  have hc : c.length = 0 := by omega
  obtain ⟨d⟩ := c
  have hd : d = [] := List.length_eq_zero.mp hc
  subst hd
  exact absurd he (by decide)

/-- String fact: appending `_latest` to anything never yields the key name. -/
theorem append_latest_ne_mmsi (c : String) : c ++ "_latest" ≠ "mmsi" := by
  intro he
  have hl := congrArg String.length he
  rw [String.length_append] at hl
  have h1 : ("_latest" : String).length = 7 := rfl
  have h2 : ("mmsi" : String).length = 4 := rfl
  omega

theorem mmsi_not_mem_overlap (lc rc : List String) : "mmsi" ∉ overlapCols lc rc := by
  intro h
  have h2 := (List.mem_filter.mp h).2
  simp at h2

/-- Renaming by `suffixIf` maps a name to the key name only if it was the
key name (the key is never in the overlap, and no suffixed name is `mmsi`). -/
theorem suffixIf_eq_mmsi_iff (ov : List String) (suf : String)
    (hsuf : ∀ c, c ++ suf ≠ "mmsi") (hov : "mmsi" ∉ ov) (c : String) :
    suffixIf ov suf c = "mmsi" ↔ c = "mmsi" := by
  unfold suffixIf
  by_cases hc : c ∈ ov
  · rw [if_pos hc]
    constructor
    · intro h; exact absurd h (hsuf c)
    · intro h; subst h; exact absurd hc hov
  · rw [if_neg hc]

theorem lrenOf_eq_mmsi_iff (lc rc : List String) (c : String) :
    lrenOf lc rc c = "mmsi" ↔ c = "mmsi" :=
  suffixIf_eq_mmsi_iff _ _ append_top_ne_mmsi (mmsi_not_mem_overlap lc rc) c

theorem rrenOf_eq_mmsi_iff (lc rc : List String) (c : String) :
    rrenOf lc rc c = "mmsi" ↔ c = "mmsi" :=
  suffixIf_eq_mmsi_iff _ _ append_latest_ne_mmsi (mmsi_not_mem_overlap lc rc) c

/-- Renaming keys with a map that fixes exactly the key name preserves the
key lookup. -/
theorem lookupCell_renameKeys_mmsi (f : String → String)
    (hf : ∀ k, f k = "mmsi" ↔ k = "mmsi") (L : Row) :
    lookupCell (renameKeys f L) "mmsi" = lookupCell L "mmsi" := by
  induction L with
  | nil => rfl
  | cons p rest ih =>
    obtain ⟨k, v⟩ := p
    simp only [renameKeys, List.map_cons, lookupCell]
    by_cases hk : k = "mmsi"
    · rw [if_pos ((hf k).mpr hk), if_pos hk]
    · rw [if_neg (fun hcon => hk ((hf k).mp hcon)), if_neg hk]
      exact ih

theorem hasKey_renameKeys_mmsi (f : String → String)
    (hf : ∀ k, f k = "mmsi" ↔ k = "mmsi") (L : Row) :
    hasKey (renameKeys f L) "mmsi" = hasKey L "mmsi" := by
  induction L with
  | nil => rfl
  | cons p rest ih =>
    obtain ⟨k, v⟩ := p
    simp only [renameKeys, List.map_cons, hasKey, List.any_cons] at ih ⊢
    rw [ih]
    by_cases hk : k = "mmsi"
    · rw [decide_eq_true ((hf k).mpr hk), decide_eq_true hk]
    · rw [decide_eq_false (fun hcon => hk ((hf k).mp hcon)), decide_eq_false hk]

theorem lookupCell_append_of_hasKey (A B : Row) (c : String) (h : hasKey A c = true) :
    lookupCell (A ++ B) c = lookupCell A c := by
  induction A with
  | nil => simp [hasKey] at h
  | cons p rest ih =>
    obtain ⟨k, v⟩ := p
    simp only [List.cons_append, lookupCell]
    by_cases hk : k = c
    · rw [if_pos hk, if_pos hk]
    · rw [if_neg hk, if_neg hk]
      apply ih
      simp only [hasKey, List.any_cons, Bool.or_eq_true, decide_eq_true_eq] at h
      rcases h with h | h
      · exact absurd h hk
      · exact h

theorem lookupCell_append_of_not_hasKey (A B : Row) (c : String) (h : hasKey A c = false) :
    lookupCell (A ++ B) c = lookupCell B c := by
  induction A with
  | nil => rfl
  | cons p rest ih =>
    obtain ⟨k, v⟩ := p
    simp only [hasKey, List.any_cons, Bool.or_eq_false_iff, decide_eq_false_iff_not] at h
    simp only [List.cons_append, lookupCell, if_neg h.1]
    exact ih (by simp only [hasKey]; exact h.2)

theorem lookupCell_eq_null_of_not_hasKey (A : Row) (c : String) (h : hasKey A c = false) :
    lookupCell A c = Cell.null := by
  induction A with
  | nil => rfl
  | cons p rest ih =>
    obtain ⟨k, v⟩ := p
    simp only [hasKey, List.any_cons, Bool.or_eq_false_iff, decide_eq_false_iff_not] at h
    simp only [lookupCell, if_neg h.1]
    exact ih (by simp only [hasKey]; exact h.2)

theorem hasKey_of_lookupCell_ne_null (A : Row) (c : String)
    (h : lookupCell A c ≠ Cell.null) : hasKey A c = true := by
  by_cases hk : hasKey A c = true
  · exact hk
  · exact absurd (lookupCell_eq_null_of_not_hasKey A c (Bool.eq_false_iff.mpr hk)) h

/-- A null join key matches nothing. -/
theorem matchesFor_null (rightRows : List Row) :
    matchesFor rightRows Cell.null = [] := by
  unfold matchesFor
  apply List.filter_eq_nil_iff.mpr
  intro R _
  simp

/-- The enriched record keeps the left row's join key. -/
theorem lookupCell_enrichRow_mmsi (rightRows : List Row) (lc rc : List String) (L : Row) :
    lookupCell (enrichRow rightRows (lrenOf lc rc) (rrenOf lc rc) L) "mmsi" =
      lookupCell L "mmsi" := by
  unfold enrichRow
  cases hm : matchesFor rightRows (lookupCell L "mmsi") with
  | nil => exact lookupCell_renameKeys_mmsi _ (lrenOf_eq_mmsi_iff lc rc) L
  | cons R ms =>
    have hk : lookupCell L "mmsi" ≠ Cell.null := by
      intro hnull
      rw [hnull, matchesFor_null] at hm
      exact List.noConfusion hm
    have hkey : hasKey (renameKeys (lrenOf lc rc) L) "mmsi" = true := by
      rw [hasKey_renameKeys_mmsi _ (lrenOf_eq_mmsi_iff lc rc) L]
      exact hasKey_of_lookupCell_ne_null L "mmsi" hk
    rw [lookupCell_append_of_hasKey _ _ _ hkey]
    exact lookupCell_renameKeys_mmsi _ (lrenOf_eq_mmsi_iff lc rc) L

/-- With pairwise-distinct mapped values, at most one element maps to `b`. -/
theorem filter_length_le_one_of_nodup_map {α β : Type} [DecidableEq β]
    (f : α → β) (l : List α) (h : (l.map f).Nodup) (b : β) :
    (l.filter (fun x => decide (f x = b))).length ≤ 1 := by
  induction l with
  | nil => simp
  | cons x xs ih =>
    simp only [List.map_cons, List.nodup_cons] at h
    obtain ⟨hx, hxs⟩ := h
    simp only [List.filter_cons]
    by_cases hfx : f x = b
    · rw [if_pos (by simpa using hfx)]
      have hnone : xs.filter (fun x' => decide (f x' = b)) = [] := by
        apply List.filter_eq_nil_iff.mpr
        intro a ha hcon
        have hfa : f a = b := by simpa using hcon
        exact hx (by rw [hfx, ← hfa]; exact List.mem_map_of_mem f ha)
      rw [hnone]
      simp
    · rw [if_neg (by simpa using hfx)]
      exact ih hxs

/-- With unique join keys on the right, every key has at most one match. -/
theorem matchesFor_length_le_one (rightRows : List Row)
    (hnd : (rightRows.map (fun r => lookupCell r "mmsi")).Nodup) (k : Cell) :
    (matchesFor rightRows k).length ≤ 1 := by
  by_cases hk : k = Cell.null
  · rw [hk, matchesFor_null]
    exact Nat.zero_le 1
  · unfold matchesFor
    have hcong : ∀ R ∈ rightRows,
        (!decide (k = Cell.null) && decide (lookupCell R "mmsi" = k)) =
          decide (lookupCell R "mmsi" = k) := by
      intro R _
      simp [hk]
    rw [List.filter_congr hcong]
    exact filter_length_le_one_of_nodup_map (fun r => lookupCell r "mmsi") rightRows hnd k

/-- With unique right keys, a left row contributes exactly one output row,
namely its enriched record. -/
theorem mergeRowsFor_eq_singleton (rightRows : List Row) (lren rren : String → String)
    (L : Row) (hlen : (matchesFor rightRows (lookupCell L "mmsi")).length ≤ 1) :
    mergeRowsFor rightRows lren rren L = [enrichRow rightRows lren rren L] := by
  unfold mergeRowsFor enrichRow
  cases hm : matchesFor rightRows (lookupCell L "mmsi") with
  | nil => rfl
  | cons R ms =>
    rw [hm] at hlen
    have hms : ms = [] := by
      rw [List.length_cons] at hlen
      exact List.length_eq_zero.mp (Nat.le_zero.mp (Nat.le_of_succ_le_succ hlen))
    subst hms
    rfl

theorem concatMap_eq_map_of_singleton (f : Row → List Row) (g : Row → Row) (l : List Row)
    (h : ∀ x ∈ l, f x = [g x]) : concatMap f l = l.map g := by
  induction l with
  | nil => rfl
  | cons x xs ih =>
    simp only [concatMap, List.map_cons, h x (List.mem_cons_self x xs),
      List.singleton_append]
    rw [ih (fun y hy => h y (List.mem_cons_of_mem x hy))]

/-- With pairwise-distinct mapped values, an attained value is attained by
exactly one element. -/
theorem countP_eq_one_of_nodup_map {α β : Type} [DecidableEq β]
    (f : α → β) (l : List α) (h : (l.map f).Nodup) (b : β) (hb : b ∈ l.map f) :
    l.countP (fun x => decide (f x = b)) = 1 := by
  induction l with
  | nil => simp at hb
  | cons x xs ih =>
    simp only [List.map_cons, List.nodup_cons] at h
    obtain ⟨hx, hxs⟩ := h
    rw [List.countP_cons]
    by_cases hfx : f x = b
    · have h0 : xs.countP (fun x' => decide (f x' = b)) = 0 := by
        rw [List.countP_eq_zero]
        intro a ha hcon
        have hfa : f a = b := by simpa using hcon
        exact hx (by rw [hfx, ← hfa]; exact List.mem_map_of_mem f ha)
      simp [h0, hfx]
    · have hbxs : b ∈ xs.map f := by
        rw [List.map_cons] at hb
        rcases List.mem_cons.mp hb with h1 | h1
        · exact absurd h1.symm hfx
        · exact h1
      simp only [hfx, decide_eq_true_eq, if_false, Nat.add_zero]
      exact ih hxs hbxs

theorem countP_ext (l : List Row) (p q : Row → Bool) (h : ∀ a ∈ l, p a = q a) :
    l.countP p = l.countP q := by
  induction l with
  | nil => rfl
  | cons x xs ih =>
    rw [List.countP_cons, List.countP_cons, h x (List.mem_cons_self x xs),
      ih (fun a ha => h a (List.mem_cons_of_mem x ha))]

/-- C6: with unique identifiers in each source, an identifier present in both
frames receives exactly one enriched record — the left join never duplicates
a registry row. -/
theorem merge_data_no_fanout (reg lat : DataFrame) (i : Cell)
    (hml : "mmsi" ∈ reg.cols) (hmr : "mmsi" ∈ lat.cols)
    (hnl : (reg.rows.map (fun r => lookupCell r "mmsi")).Nodup)
    (hnr : (lat.rows.map (fun r => lookupCell r "mmsi")).Nodup)
    (hil : i ∈ reg.rows.map (fun r => lookupCell r "mmsi"))
    (_hir : i ∈ lat.rows.map (fun r => lookupCell r "mmsi")) :
    ∃ out, merge_data reg lat = Except.ok out ∧
      out.rows.countP (fun r => decide (lookupCell r "mmsi" = i)) = 1 := by
  refine ⟨⟨mergedCols reg.cols lat.cols,
    concatMap (mergeRowsFor lat.rows (lrenOf reg.cols lat.cols)
      (rrenOf reg.cols lat.cols)) reg.rows⟩, ?_, ?_⟩
  · simp only [merge_data, if_pos (And.intro hml hmr)]
  · have hmap : concatMap (mergeRowsFor lat.rows (lrenOf reg.cols lat.cols)
        (rrenOf reg.cols lat.cols)) reg.rows =
        reg.rows.map (enrichRow lat.rows (lrenOf reg.cols lat.cols)
          (rrenOf reg.cols lat.cols)) :=
      concatMap_eq_map_of_singleton _ _ _
        (fun L _ => mergeRowsFor_eq_singleton _ _ _ L
          (matchesFor_length_le_one lat.rows hnr _))
    simp only [hmap]
    rw [List.countP_map]
    have hcong : ∀ L ∈ reg.rows,
        ((fun r => decide (lookupCell r "mmsi" = i)) ∘
          enrichRow lat.rows (lrenOf reg.cols lat.cols) (rrenOf reg.cols lat.cols)) L =
          decide (lookupCell L "mmsi" = i) := by
      intro L _
      simp only [Function.comp_apply]
      rw [lookupCell_enrichRow_mmsi lat.rows reg.cols lat.cols L]
    rw [countP_ext _ _ _ hcong]
    exact countP_eq_one_of_nodup_map _ _ hnl i hil

/-- Witness for C6: identifier 1 appears in both two-row frames and yields
exactly one merged record. -/
theorem merge_data_no_fanout_witness :
    ∃ out,
      merge_data
        ⟨["mmsi", "siteName"],
         [[("mmsi", Cell.num 1), ("siteName", Cell.str "A")],
          [("mmsi", Cell.num 2), ("siteName", Cell.str "B")]]⟩
        ⟨["mmsi", "waterTemperature"],
         [[("mmsi", Cell.num 1), ("waterTemperature", Cell.num 15)]]⟩ = Except.ok out ∧
      out.rows.countP (fun r => decide (lookupCell r "mmsi" = Cell.num 1)) = 1 :=
  merge_data_no_fanout _ _ _ (by decide) (by decide) (by decide) (by decide)
    (by decide) (by decide)

/-- C2 counterexample: the latest-readings collection the code produces when
every fetch fails is the column-less empty frame, and merging a one-row
registry against it raises `KeyError` — no output record per registry entry
is produced, refuting the claim for that collection. -/
theorem merge_data_empty_latest_cex :
    merge_data regAlpha ⟨[], []⟩ = Except.error "KeyError: mmsi" := rfl

theorem mem_of_mem_matchesFor (rightRows : List Row) (k : Cell) (R : Row)
    (h : R ∈ matchesFor rightRows k) : R ∈ rightRows := by
  unfold matchesFor at h
  exact (List.mem_filter.mp h).1

theorem hasKey_eq_false_iff (r : Row) (c : String) :
    hasKey r c = false ↔ ∀ p ∈ r, p.1 ≠ c := by
  simp [hasKey, List.any_eq_false]

theorem hasKey_renameKeys_of_hasKey (f : String → String) (L : Row) (c : String)
    (h : hasKey L c = true) : hasKey (renameKeys f L) (f c) = true := by
  simp only [hasKey, List.any_eq_true, decide_eq_true_eq] at h ⊢
  obtain ⟨p, hp, he⟩ := h
  refine ⟨(f p.1, p.2), ?_, ?_⟩
  · exact List.mem_map_of_mem _ hp
  · rw [he]

/-- Renaming by an injective-on-the-row map preserves every lookup. -/
theorem lookupCell_renameKeys_inj (f : String → String) (L : Row) (c : String)
    (hinj : ∀ p ∈ L, f p.1 = f c → p.1 = c) :
    lookupCell (renameKeys f L) (f c) = lookupCell L c := by
  induction L with
  | nil => rfl
  | cons p rest ih =>
    obtain ⟨k, v⟩ := p
    simp only [renameKeys, List.map_cons, lookupCell]
    by_cases hk : k = c
    · rw [if_pos (by rw [hk]), if_pos hk]
    · have hfk : f k ≠ f c :=
        fun hcon => hk (hinj (k, v) (List.mem_cons_self _ _) hcon)
      rw [if_neg hfk, if_neg hk]
      exact ih (fun p hp => hinj p (List.mem_cons_of_mem _ hp))

/-- C2 amended: for frames that both carry the `mmsi` column, with row keys
drawn from their frame's columns, collision-free suffixed output labels, and
unique identifiers in the readings frame (the spec's `latestById` mapping),
`merge_data` succeeds and produces exactly one output record per registry
row, in registry input order (the row list is a `map` over the registry
rows); each output record preserves every registry field under the left
renaming, and a registry row with no matching reading carries null in every
reading-sourced column. -/
theorem merge_data_left_join (reg lat : DataFrame)
    (hml : "mmsi" ∈ reg.cols) (hmr : "mmsi" ∈ lat.cols)
    (hwl : ∀ r ∈ reg.rows, ∀ p ∈ r, p.1 ∈ reg.cols)
    (hwr : ∀ r ∈ lat.rows, ∀ p ∈ r, p.1 ∈ lat.cols)
    (hnd : (mergedCols reg.cols lat.cols).Nodup)
    (hnr : (lat.rows.map (fun r => lookupCell r "mmsi")).Nodup) :
    ∃ out, merge_data reg lat = Except.ok out ∧
      out.rows = reg.rows.map (enrichRow lat.rows (lrenOf reg.cols lat.cols)
        (rrenOf reg.cols lat.cols)) ∧
      (∀ L ∈ reg.rows, ∀ c ∈ reg.cols,
        lookupCell (enrichRow lat.rows (lrenOf reg.cols lat.cols)
          (rrenOf reg.cols lat.cols) L) (lrenOf reg.cols lat.cols c) =
          lookupCell L c) ∧
      (∀ L ∈ reg.rows, matchesFor lat.rows (lookupCell L "mmsi") = [] →
        ∀ c ∈ lat.cols, c ≠ "mmsi" →
          lookupCell (enrichRow lat.rows (lrenOf reg.cols lat.cols)
            (rrenOf reg.cols lat.cols) L) (rrenOf reg.cols lat.cols c) =
            Cell.null) := by
  have hnd' := List.nodup_append.mp hnd
  obtain ⟨hndl, hndr, hdisj⟩ := hnd'
  have hinjl : ∀ x ∈ reg.cols, ∀ y ∈ reg.cols,
      lrenOf reg.cols lat.cols x = lrenOf reg.cols lat.cols y → x = y :=
    fun x hx y hy hxy => List.inj_on_of_nodup_map hndl hx hy hxy
  refine ⟨⟨mergedCols reg.cols lat.cols,
    concatMap (mergeRowsFor lat.rows (lrenOf reg.cols lat.cols)
      (rrenOf reg.cols lat.cols)) reg.rows⟩, ?_, ?_, ?_, ?_⟩
  · simp only [merge_data, if_pos (And.intro hml hmr)]
  · exact concatMap_eq_map_of_singleton _ _ _
      (fun L _ => mergeRowsFor_eq_singleton _ _ _ L
        (matchesFor_length_le_one lat.rows hnr _))
  · intro L hL c hc
    have hinj : ∀ p ∈ L, lrenOf reg.cols lat.cols p.1 = lrenOf reg.cols lat.cols c →
        p.1 = c :=
      fun p hp he => hinjl p.1 (hwl L hL p hp) c hc he
    unfold enrichRow
    cases hm : matchesFor lat.rows (lookupCell L "mmsi") with
    | nil => exact lookupCell_renameKeys_inj _ L c hinj
    | cons R ms =>
      have hRlat : R ∈ lat.rows :=
        mem_of_mem_matchesFor lat.rows (lookupCell L "mmsi") R
          (hm ▸ List.mem_cons_self R ms)
      by_cases hk : hasKey (renameKeys (lrenOf reg.cols lat.cols) L)
          (lrenOf reg.cols lat.cols c) = true
      · rw [lookupCell_append_of_hasKey _ _ _ hk]
        exact lookupCell_renameKeys_inj _ L c hinj
      · have hk' : hasKey (renameKeys (lrenOf reg.cols lat.cols) L)
            (lrenOf reg.cols lat.cols c) = false := Bool.eq_false_iff.mpr hk
        rw [lookupCell_append_of_not_hasKey _ _ _ hk']
        have hLc : hasKey L c = false := by
          cases hb : hasKey L c with
          | false => rfl
          | true =>
            exact absurd (hasKey_renameKeys_of_hasKey
              (lrenOf reg.cols lat.cols) L c hb) hk
        rw [lookupCell_eq_null_of_not_hasKey L c hLc]
        apply lookupCell_eq_null_of_not_hasKey
        apply (hasKey_eq_false_iff _ _).mpr
        intro p hp hpc
        simp only [renameKeys] at hp
        obtain ⟨q, hq, hpe⟩ := List.mem_map.mp hp
        simp only [eraseKey] at hq
        have hq' := List.mem_filter.mp hq
        have hqm : q.1 ≠ "mmsi" := by simpa using hq'.2
        have hqcols : q.1 ∈ lat.cols := hwr R hRlat q hq'.1
        have hp1 : p.1 = rrenOf reg.cols lat.cols q.1 := by rw [← hpe]
        apply hdisj (List.mem_map_of_mem (lrenOf reg.cols lat.cols) hc)
        rw [← hpc, hp1]
        exact List.mem_map_of_mem _
          (List.mem_filter.mpr ⟨hqcols, by simpa using hqm⟩)
  · intro L hL hnone c hc hcm
    unfold enrichRow
    rw [hnone]
    apply lookupCell_eq_null_of_not_hasKey
    apply (hasKey_eq_false_iff _ _).mpr
    intro p hp hpc
    simp only [renameKeys] at hp
    obtain ⟨q, hq, hpe⟩ := List.mem_map.mp hp
    have hqcols : q.1 ∈ reg.cols := hwl L hL q hq
    have hp1 : p.1 = lrenOf reg.cols lat.cols q.1 := by rw [← hpe]
    have hleft : p.1 ∈ List.map (lrenOf reg.cols lat.cols) reg.cols := by
      rw [hp1]
      exact List.mem_map_of_mem _ hqcols
    have hright : p.1 ∈ List.map (rrenOf reg.cols lat.cols)
        (lat.cols.filter (fun c' => !decide (c' = "mmsi"))) := by
      rw [hpc]
      exact List.mem_map_of_mem _ (List.mem_filter.mpr ⟨hc, by simpa using hcm⟩)
    exact hdisj hleft hright

/-- Witness for C2 on a two-row registry (identifier 2 unmatched) and a
one-row readings frame. -/
theorem merge_data_left_join_witness :
    ∃ out,
      merge_data
        ⟨["mmsi", "siteName"],
         [[("mmsi", Cell.num 1), ("siteName", Cell.str "A")],
          [("mmsi", Cell.num 2), ("siteName", Cell.str "B")]]⟩
        ⟨["mmsi", "waterTemperature"],
         [[("mmsi", Cell.num 1), ("waterTemperature", Cell.num 15)]]⟩ = Except.ok out ∧
      out.rows =
        (DataFrame.mk ["mmsi", "siteName"]
          [[("mmsi", Cell.num 1), ("siteName", Cell.str "A")],
           [("mmsi", Cell.num 2), ("siteName", Cell.str "B")]]).rows.map
          (enrichRow
            (DataFrame.mk ["mmsi", "waterTemperature"]
              [[("mmsi", Cell.num 1), ("waterTemperature", Cell.num 15)]]).rows
            (lrenOf ["mmsi", "siteName"] ["mmsi", "waterTemperature"])
            (rrenOf ["mmsi", "siteName"] ["mmsi", "waterTemperature"])) ∧
      (∀ L ∈ (DataFrame.mk ["mmsi", "siteName"]
          [[("mmsi", Cell.num 1), ("siteName", Cell.str "A")],
           [("mmsi", Cell.num 2), ("siteName", Cell.str "B")]]).rows,
        ∀ c ∈ ["mmsi", "siteName"],
          lookupCell (enrichRow
            [[("mmsi", Cell.num 1), ("waterTemperature", Cell.num 15)]]
            (lrenOf ["mmsi", "siteName"] ["mmsi", "waterTemperature"])
            (rrenOf ["mmsi", "siteName"] ["mmsi", "waterTemperature"]) L)
            (lrenOf ["mmsi", "siteName"] ["mmsi", "waterTemperature"] c) =
            lookupCell L c) ∧
      (∀ L ∈ (DataFrame.mk ["mmsi", "siteName"]
          [[("mmsi", Cell.num 1), ("siteName", Cell.str "A")],
           [("mmsi", Cell.num 2), ("siteName", Cell.str "B")]]).rows,
        matchesFor [[("mmsi", Cell.num 1), ("waterTemperature", Cell.num 15)]]
          (lookupCell L "mmsi") = [] →
        ∀ c ∈ ["mmsi", "waterTemperature"], c ≠ "mmsi" →
          lookupCell (enrichRow
            [[("mmsi", Cell.num 1), ("waterTemperature", Cell.num 15)]]
            (lrenOf ["mmsi", "siteName"] ["mmsi", "waterTemperature"])
            (rrenOf ["mmsi", "siteName"] ["mmsi", "waterTemperature"]) L)
            (rrenOf ["mmsi", "siteName"] ["mmsi", "waterTemperature"] c) =
            Cell.null) :=
  merge_data_left_join
    ⟨["mmsi", "siteName"],
     [[("mmsi", Cell.num 1), ("siteName", Cell.str "A")],
      [("mmsi", Cell.num 2), ("siteName", Cell.str "B")]]⟩
    ⟨["mmsi", "waterTemperature"],
     [[("mmsi", Cell.num 1), ("waterTemperature", Cell.num 15)]]⟩
    (by decide) (by decide) (by decide) (by decide) (by decide) (by decide)

end MetOcean
